import Mathlib

/-!
# Verification of the document-ingestion pipeline and chat endpoint

Shallow embedding of `backend/ingest/ingest.py` (loader, splitter, indexer)
and of `backend/app/llm.py` / `backend/app/routers/chat.py` (chat endpoint).

Strings are modelled as `List Char`.  The parts of the pipeline whose
behaviour is decided by the external langchain / SDK libraries rather than
by code in this repository (the directory loader, the text splitter, the
id generation and the vector-store write) are modelled from the spec, as
noted in the doc comment of each such definition.  The wiring — which glob
patterns are used, the chunk-size / overlap configuration, the message
list sent to the chat completion API — is taken directly from the source.
-/

namespace Ingest

/-- Metadata attached to a loaded document: at minimum the originating
file path (`source`), and for PDF pages also the page index. -/
structure DocMetadata where
  source : List Char
  page : Option Nat
deriving DecidableEq, Repr

/-- A document produced by the loader: text content plus metadata. -/
structure Document where
  text : List Char
  metadata : DocMetadata
deriving DecidableEq, Repr

/-- Content of a file on disk, as the loaders see it: a readable text
file, a parsed PDF (one text per page), or a file that fails to parse. -/
inductive FileContent where
  | textFile (content : List Char)
  | pdfFile (pages : List (List Char))
  | parseFailure
deriving DecidableEq, Repr

/-- A file in the input directory tree.  `ext` is the file extension the
recursive glob patterns match on; the directory tree itself is abstracted
to the flat list of files the recursive glob enumerates. -/
structure File where
  path : List Char
  ext : List Char
  content : FileContent
deriving DecidableEq, Repr

/-- Whether a file's content parses under its loader. -/
def FileContent.parses : FileContent → Bool
  | .parseFailure => false
  | _ => true

/-- Modelled from the spec: `TextLoader` produces one Document per
plain-text file, text = full file contents, metadata = the source path.
A file whose content cannot be read as text fails to parse. -/
def textLoaderLoad (f : File) : Option (List Document) :=
  match f.content with
  | .textFile c => some [{ text := c, metadata := { source := f.path, page := none } }]
  | _ => none

/-- Modelled from the spec: `PyPDFLoader` produces one Document per PDF
page, text = extracted page text, metadata = source path and page index.
A file whose content cannot be parsed as a PDF fails to parse. -/
def pyPDFLoaderLoad (f : File) : Option (List Document) :=
  match f.content with
  | .pdfFile pages =>
      some (pages.enum.map (fun ip =>
        { text := ip.2, metadata := { source := f.path, page := some ip.1 } }))
  | _ => none

/-- Modelled from the spec: `DirectoryLoader` applies a recursive glob for
one extension over the input directory and runs the given loader on every
matching file; a file that fails to parse is skipped with a warning
(non-fatal), contributing no Documents. -/
def directoryLoaderLoad (fs : List File) (ext : List Char)
    (loader : File → Option (List Document)) : List Document :=
  (fs.filter (fun f => f.ext == ext)).flatMap (fun f => (loader f).getD [])

/-- `load_documents` from `ingest.py`: loads `**/*.txt` files with
`TextLoader`, then `**/*.pdf` files with `PyPDFLoader`, and concatenates
the results in that order.  Note the source passes exactly these two glob
patterns; there is no glob for `.md` files. -/
def load_documents (fs : List File) : List Document :=
  directoryLoaderLoad fs ['t', 'x', 't'] textLoaderLoad ++
    directoryLoaderLoad fs ['p', 'd', 'f'] pyPDFLoaderLoad

/-- Number of Documents the `**/*.txt` glob pass produces for one file:
one per matching plain-text file that parses. -/
def txtDocCount (f : File) : Nat :=
  if f.ext = ['t', 'x', 't'] then
    match f.content with
    | .textFile _ => 1
    | _ => 0
  else 0

/-- Number of Documents the `**/*.pdf` glob pass produces for one file:
one per page of a matching PDF that parses. -/
def pdfDocCount (f : File) : Nat :=
  if f.ext = ['p', 'd', 'f'] then
    match f.content with
    | .pdfFile pages => pages.length
    | _ => 0
  else 0

/-- An input directory holding a single well-formed Markdown file; used
to exhibit that `load_documents` has no glob pass for `.md` files. -/
def mdOnlyDir : List File :=
  [{ path := ['n', 'o', 't', 'e', '.', 'm', 'd'],
     ext := ['m', 'd'],
     content := .textFile ['h', 'i'] }]

/-- A chunk produced by the splitter: a piece of a Document's text
carrying the parent Document's metadata. -/
structure Chunk where
  text : List Char
  metadata : DocMetadata
deriving DecidableEq, Repr

/-- Recursion core of the splitter, structural on a fuel argument so
that it is kernel-computable; `fuel` is instantiated with the text
length, which bounds the number of emitted chunks. -/
def splitTextGo (maxSize ov : Nat) : Nat → List Char → List (List Char)
  | 0, _ => []
  | _, [] => []
  | fuel + 1, s =>
      if s.length ≤ maxSize then [s]
      else if maxSize ≤ ov then [s]
      else s.take maxSize :: splitTextGo maxSize ov fuel (s.drop (maxSize - ov))

/-- Modelled from the spec: `RecursiveCharacterTextSplitter.split_text`
with maximum chunk size `maxSize` and overlap `ov` (characters,
`ov < maxSize`).  Greedily emits a window of at most `maxSize`
characters; after emitting a chunk the next chunk starts `ov`
characters before the previous chunk's end.  An empty Document yields
zero chunks; a Document no longer than `maxSize` yields exactly one
chunk equal to its full text.  A degenerate configuration with
`maxSize ≤ ov` is guarded by returning the whole text as one chunk. -/
def splitText (maxSize ov : Nat) (s : List Char) : List (List Char) :=
  splitTextGo maxSize ov s.length s

/-- Reassembles a chunk list into the original text by keeping the
first chunk whole and dropping the first `ov` characters — the region
shared with the previous chunk — from every later chunk.  That this
inverts the splitter states that consecutive chunks overlap by exactly
`ov` characters at their shared boundary. -/
def joinWithOverlap (ov : Nat) : List (List Char) → List Char
  | [] => []
  | c :: cs => c ++ cs.flatMap (fun t => t.drop ov)

/-- The fixed test document named by the spec. -/
def fixedTestDoc : List Char :=
  ("Hello world. This is a test document used for chunking.").data

/-- Two chunk texts overlap by the `ov` characters at their shared
boundary: the last `ov` characters of the first equal the first `ov`
characters of the second, and both are long enough to contain the
shared region. -/
def overlapsBy (ov : Nat) (a b : List Char) : Prop :=
  ov ≤ a.length ∧ ov ≤ b.length ∧ a.drop (a.length - ov) = b.take ov

instance (ov : Nat) (a b : List Char) : Decidable (overlapsBy ov a b) := by
  unfold overlapsBy; infer_instance

/-- Modelled from the spec: `split_documents` of the splitter object:
every Document is split into chunks, each chunk retaining the parent
Document's metadata unchanged. -/
def splitDocumentsWith (maxSize ov : Nat) (docs : List Document) : List Chunk :=
  docs.flatMap (fun d => (splitText maxSize ov d.text).map
    (fun t => { text := t, metadata := d.metadata }))

/-- `split_documents` from `ingest.py`: a
`RecursiveCharacterTextSplitter` with `chunk_size=800` and
`chunk_overlap=150` applied to the document list. -/
def split_documents (docs : List Document) : List Chunk :=
  splitDocumentsWith 800 150 docs

/-- Error raised by the external embedding provider. -/
structure EmbedError where
  message : List Char
deriving DecidableEq, Repr

/-- A record written to the vector-store collection: id, embedding
vector, chunk text and chunk metadata. -/
structure EmbeddingRecord where
  id : Nat
  vector : List Int
  text : List Char
  metadata : DocMetadata
deriving DecidableEq, Repr

/-- Modelled from the spec: fresh unique id generation (`uuid4()` per
chunk in the code).  Freshness is represented by a monotone counter
state `g`: ids handed out are `g, g+1, ...`, never repeating an id
generated earlier in the process. -/
def freshIds (g : Nat) (n : Nat) : List Nat :=
  (List.range n).map (fun i => g + i)

/-- Assembles one vector-store record from a generated id, the
embedding vector returned for the chunk, and the chunk itself. -/
def mkRecord (iv : Nat × List Int) (c : Chunk) : EmbeddingRecord :=
  { id := iv.1, vector := iv.2, text := c.text, metadata := c.metadata }

/-- A stub embedding provider returning a fixed one-dimensional zero
vector for any input; used to instantiate the indexer theorems. -/
def stubEmbed : List Char → Except EmbedError (List Int) :=
  fun _ => .ok [0]

/-- A one-chunk input batch used to instantiate the indexer theorems. -/
def singleChunkBatch : List Chunk :=
  [{ text := ['a'], metadata := { source := ['s'], page := none } }]

/-- The collection and id-generator state after ingesting
`singleChunkBatch` with `stubEmbed` into an empty collection starting
from generator state 5. -/
def firstRunOut : List EmbeddingRecord × Nat :=
  ([{ id := 5, vector := [0], text := ['a'],
      metadata := { source := ['s'], page := none } }], 6)

/-- `build_vectorstore` from `ingest.py`, with the external embedding
provider abstracted as `embed` and the persistent collection as the
record list `store`.  Modelled from the spec: one embedding vector is
computed per chunk text by calling the provider (a failure is fatal,
propagating out with no retry), a fresh id is generated per chunk, and
the `(id, vector, text, metadata)` records are appended to the named
collection.  Returns the new collection and the advanced id-generator
state. -/
def build_vectorstore (embed : List Char → Except EmbedError (List Int))
    (store : List EmbeddingRecord) (g : Nat) (chunks : List Chunk) :
    Except EmbedError (List EmbeddingRecord × Nat) :=
  match chunks.mapM (fun c => embed c.text) with
  | .error e => .error e
  | .ok vecs =>
      let records := List.zipWith mkRecord
        ((freshIds g chunks.length).zip vecs) chunks
      .ok (store ++ records, g + chunks.length)

end Ingest

namespace ChatApp

/-- A chat message sent to the completion API: a role and a content
string. -/
structure ChatMessage where
  role : List Char
  content : List Char
deriving DecidableEq, Repr

/-- One choice of a chat-completion response. -/
structure Choice where
  message : ChatMessage
deriving DecidableEq, Repr

/-- A chat-completion response: a list of choices. -/
structure ChatCompletion where
  choices : List Choice
deriving DecidableEq, Repr

/-- The fixed system prompt from `llm.py`. -/
def systemPrompt : List Char :=
  ("You are a helpful assistant.").data

/-- `chat_with_llm` from `llm.py`, with the external chat-completion
API abstracted as the oracle `complete` (deployment name and
temperature are fixed configuration passed alongside the messages, not
modelled).  Sends exactly two messages — the fixed system message and
the user's message verbatim — and returns the content of the first
choice of the response.  `none` models the IndexError the code would
raise on a response with no choices. -/
def chat_with_llm (complete : List ChatMessage → ChatCompletion)
    (message : List Char) : Option (List Char) :=
  match (complete [{ role := ("system").data, content := systemPrompt },
                   { role := ("user").data, content := message }]).choices with
  | [] => none
  | c :: _ => some c.message.content

/-- Request body of the chat endpoint. -/
structure ChatRequest where
  message : List Char
deriving DecidableEq, Repr

/-- Response body of the chat endpoint. -/
structure ChatResponse where
  answer : List Char
deriving DecidableEq, Repr

/-- The `POST /v1/chat` handler from `routers/chat.py`: forwards the
request message to `chat_with_llm` and wraps the answer. -/
def chat (complete : List ChatMessage → ChatCompletion)
    (req : ChatRequest) : Option ChatResponse :=
  (chat_with_llm complete req.message).map (fun a => { answer := a })

end ChatApp

namespace Ingest

lemma directoryLoaderLoad_length (fs : List File) (ext : List Char)
    (loader : File → Option (List Document)) :
    (directoryLoaderLoad fs ext loader).length =
      (fs.map (fun f =>
        if f.ext = ext then ((loader f).getD []).length else 0)).sum := by
  induction fs with
  | nil => rfl
  | cons f fs ih =>
      unfold directoryLoaderLoad at ih ⊢
      by_cases h : f.ext = ext
      · simp [List.filter_cons, h, ih]
      · simp [List.filter_cons, h, ih]

lemma mem_directoryLoaderLoad {d : Document} {fs : List File}
    {ext : List Char} {loader : File → Option (List Document)} (f : File)
    (hf : f ∈ fs) (he : f.ext = ext) (hd : d ∈ (loader f).getD []) :
    d ∈ directoryLoaderLoad fs ext loader := by
  unfold directoryLoaderLoad
  exact List.mem_flatMap.mpr ⟨f, List.mem_filter.mpr ⟨hf, by simp [he]⟩, hd⟩

/-- C1 (counterexample): a directory holding one well-formed `.md` file
yields no Documents at all — the loader's glob passes cover only
`.txt` and `.pdf` — refuting the claim that every `.md` file yields a
Document with the file's contents. -/
theorem md_files_not_loaded :
    load_documents mdOnlyDir = [] ∧
      ¬ ∃ d ∈ load_documents mdOnlyDir, d.text = ['h', 'i'] := by
  decide

/-- C1 (amended): the supported extensions are `.txt` and `.pdf` only.
Every matching `.txt` file that parses yields one Document whose text
is the full file contents, every page of every matching `.pdf` that
parses yields one Document with that page's text, and the total count
of loaded Documents is exactly one per parsed `.txt` file plus one per
page of each parsed `.pdf` file. -/
theorem load_documents_txt_pdf_complete (fs : List File) :
    (∀ f c, f ∈ fs → f.ext = ['t', 'x', 't'] → f.content = .textFile c →
      ({ text := c, metadata := { source := f.path, page := none } } : Document) ∈
        load_documents fs) ∧
    (∀ f pages i p, f ∈ fs → f.ext = ['p', 'd', 'f'] →
      f.content = .pdfFile pages → pages[i]? = some p →
      ({ text := p, metadata := { source := f.path, page := some i } } : Document) ∈
        load_documents fs) ∧
    (load_documents fs).length =
      (fs.map txtDocCount).sum + (fs.map pdfDocCount).sum := by
  refine ⟨?_, ?_, ?_⟩
  · intro f c hf he hc
    apply List.mem_append_left
    exact mem_directoryLoaderLoad f hf he (by simp [textLoaderLoad, hc])
  · intro f pages i p hf he hc hp
    apply List.mem_append_right
    apply mem_directoryLoaderLoad f hf he
    simp only [pyPDFLoaderLoad, hc, Option.getD_some]
    exact List.mem_map.mpr ⟨(i, p), List.mk_mem_enum_iff_getElem?.mpr hp, rfl⟩
  · simp only [load_documents, List.length_append, directoryLoaderLoad_length]
    congr 1
    · apply congrArg List.sum
      apply List.map_congr_left
      intro f _
      by_cases h : f.ext = ['t', 'x', 't'] <;>
        cases hc : f.content <;> simp [txtDocCount, textLoaderLoad, h, hc]
    · apply congrArg List.sum
      apply List.map_congr_left
      intro f _
      by_cases h : f.ext = ['p', 'd', 'f'] <;>
        cases hc : f.content <;> simp [pdfDocCount, pyPDFLoaderLoad, h, hc]

/-- C1 (witness): instantiates the amended loader theorem on a concrete
directory with one `.txt` file and one two-page `.pdf` file. -/
theorem load_documents_txt_pdf_complete_witness :
    ({ text := ['a'], metadata := { source := ['f'], page := none } } : Document) ∈
      load_documents
        [{ path := ['f'], ext := ['t', 'x', 't'], content := .textFile ['a'] },
         { path := ['g'], ext := ['p', 'd', 'f'], content := .pdfFile [['x'], ['y']] }] ∧
    ({ text := ['y'], metadata := { source := ['g'], page := some 1 } } : Document) ∈
      load_documents
        [{ path := ['f'], ext := ['t', 'x', 't'], content := .textFile ['a'] },
         { path := ['g'], ext := ['p', 'd', 'f'], content := .pdfFile [['x'], ['y']] }] := by
  constructor
  · exact (load_documents_txt_pdf_complete
      [{ path := ['f'], ext := ['t', 'x', 't'], content := .textFile ['a'] },
       { path := ['g'], ext := ['p', 'd', 'f'], content := .pdfFile [['x'], ['y']] }]).1
      { path := ['f'], ext := ['t', 'x', 't'], content := .textFile ['a'] } ['a']
      (by decide) rfl rfl
  · exact (load_documents_txt_pdf_complete
      [{ path := ['f'], ext := ['t', 'x', 't'], content := .textFile ['a'] },
       { path := ['g'], ext := ['p', 'd', 'f'], content := .pdfFile [['x'], ['y']] }]).2.1
      { path := ['g'], ext := ['p', 'd', 'f'], content := .pdfFile [['x'], ['y']] }
      [['x'], ['y']] 1 ['y'] (by decide) rfl rfl rfl

/-- C2: a matching file that fails to parse is skipped and loading
continues non-fatally: the loader's result on a directory containing
the failing file equals its result on the same directory with that
file removed, i.e. the Documents of the remaining files. -/
theorem load_documents_skips_parse_failures (fs₁ fs₂ : List File) (f : File)
    (hf : f.content = .parseFailure) :
    load_documents (fs₁ ++ f :: fs₂) = load_documents (fs₁ ++ fs₂) := by
  have ht : textLoaderLoad f = none := by simp [textLoaderLoad, hf]
  have hp : pyPDFLoaderLoad f = none := by simp [pyPDFLoaderLoad, hf]
  unfold load_documents directoryLoaderLoad
  by_cases h1 : f.ext = ['t', 'x', 't'] <;> by_cases h2 : f.ext = ['p', 'd', 'f'] <;>
    simp [List.filter_append, List.filter_cons, h1, h2, List.flatMap_append, ht, hp]

/-- C2 (witness): a parse-failing `.txt` file between two good files is
skipped; the run returns the Documents of the remaining files. -/
theorem load_documents_skips_parse_failures_witness :
    load_documents
      ([{ path := ['a'], ext := ['t', 'x', 't'], content := .textFile ['a'] }] ++
        { path := ['b'], ext := ['t', 'x', 't'], content := .parseFailure } ::
        [{ path := ['c'], ext := ['t', 'x', 't'], content := .textFile ['c'] }]) =
    load_documents
      ([{ path := ['a'], ext := ['t', 'x', 't'], content := .textFile ['a'] }] ++
        [{ path := ['c'], ext := ['t', 'x', 't'], content := .textFile ['c'] }]) :=
  load_documents_skips_parse_failures _ _ _ rfl

lemma splitTextGo_fuel (maxSize ov : Nat) :
    ∀ fuel fuel' (s : List Char), s.length ≤ fuel → s.length ≤ fuel' →
      splitTextGo maxSize ov fuel s = splitTextGo maxSize ov fuel' s := by
  intro fuel
  induction fuel with
  | zero =>
      intro fuel' s hs _
      have : s = [] := List.length_eq_zero.mp (Nat.le_zero.mp hs)
      subst this
      cases fuel' <;> rfl
  | succ fuel ih =>
      intro fuel' s hs hs'
      cases s with
      | nil => cases fuel' <;> rfl
      | cons a t =>
          cases fuel' with
          | zero => simp at hs'
          | succ fuel' =>
              simp only [splitTextGo]
              by_cases h1 : (a :: t).length ≤ maxSize
              · rw [if_pos h1, if_pos h1]
              · rw [if_neg h1, if_neg h1]
                by_cases h2 : maxSize ≤ ov
                · rw [if_pos h2, if_pos h2]
                · rw [if_neg h2, if_neg h2]
                  congr 1
                  apply ih
                  · simp only [List.length_drop, List.length_cons]
                    simp only [List.length_cons] at hs h1
                    omega
                  · simp only [List.length_drop, List.length_cons]
                    simp only [List.length_cons] at hs' h1
                    omega

lemma splitText_nil (maxSize ov : Nat) : splitText maxSize ov [] = [] := rfl

lemma splitText_short (maxSize ov : Nat) (s : List Char) (hne : s ≠ [])
    (hlen : s.length ≤ maxSize) : splitText maxSize ov s = [s] := by
  cases s with
  | nil => exact absurd rfl hne
  | cons a t =>
      show splitTextGo maxSize ov (t.length + 1) (a :: t) = [a :: t]
      simp only [splitTextGo]
      rw [if_pos hlen]

lemma splitText_long_step (maxSize ov : Nat) (s : List Char)
    (hov : ov < maxSize) (hlong : maxSize < s.length) :
    splitText maxSize ov s =
      s.take maxSize :: splitText maxSize ov (s.drop (maxSize - ov)) := by
  cases s with
  | nil => simp at hlong
  | cons a t =>
      show splitTextGo maxSize ov (t.length + 1) (a :: t) = _
      simp only [splitTextGo]
      rw [if_neg (by simp only [List.length_cons] at hlong ⊢; omega),
        if_neg (by omega : ¬ maxSize ≤ ov)]
      congr 1
      apply splitTextGo_fuel
      · simp only [List.length_drop, List.length_cons]
        simp only [List.length_cons] at hlong
        omega
      · exact Nat.le_refl _

lemma splitText_head (maxSize ov : Nat) (s : List Char)
    (hov : ov < maxSize) (hne : s ≠ []) :
    ∃ cs, splitText maxSize ov s = s.take maxSize :: cs := by
  by_cases h : s.length ≤ maxSize
  · exact ⟨[], by rw [splitText_short maxSize ov s hne h, List.take_of_length_le h]⟩
  · exact ⟨_, splitText_long_step maxSize ov s hov (by omega)⟩

/-- C3: a Document whose text is nonempty and no longer than the
maximum chunk size is split into exactly one Chunk whose text is the
Document's full text; a Document with empty text yields zero Chunks. -/
theorem split_short_document_single_chunk (maxSize ov : Nat) (d : Document) :
    (d.text.length ≤ maxSize → d.text ≠ [] →
      splitDocumentsWith maxSize ov [d] =
        [{ text := d.text, metadata := d.metadata }]) ∧
    (d.text = [] → splitDocumentsWith maxSize ov [d] = []) := by
  constructor
  · intro hlen hne
    simp [splitDocumentsWith, splitText_short maxSize ov d.text hne hlen]
  · intro he
    simp [splitDocumentsWith, he, splitText_nil]

/-- C3 (witness): with max size 10 and overlap 3, the two-character
document yields its sole full-text chunk and the empty document yields
no chunks. -/
theorem split_short_document_single_chunk_witness :
    splitDocumentsWith 10 3
        [{ text := ['h', 'i'], metadata := { source := ['s'], page := none } }] =
      [{ text := ['h', 'i'], metadata := { source := ['s'], page := none } }] ∧
    splitDocumentsWith 10 3
        [{ text := [], metadata := { source := ['s'], page := none } }] = [] := by
  constructor
  · exact (split_short_document_single_chunk 10 3
      { text := ['h', 'i'], metadata := { source := ['s'], page := none } }).1
      (by decide) (by decide)
  · exact (split_short_document_single_chunk 10 3
      { text := [], metadata := { source := ['s'], page := none } }).2 rfl

lemma splitText_chain (maxSize ov : Nat) (hov : ov < maxSize) (s : List Char) :
    List.Chain' (overlapsBy ov) (splitText maxSize ov s) := by
  by_cases h0 : s.length ≤ maxSize
  · cases s with
    | nil => exact List.chain'_nil
    | cons a t =>
        rw [splitText_short maxSize ov (a :: t) (by simp) h0]
        exact List.chain'_singleton _
  · rw [splitText_long_step maxSize ov s hov (by omega)]
    have hdne : s.drop (maxSize - ov) ≠ [] := by
      rw [Ne, List.drop_eq_nil_iff]
      omega
    have ih := splitText_chain maxSize ov hov (s.drop (maxSize - ov))
    refine List.chain'_cons'.mpr ⟨?_, ih⟩
    intro b hb
    obtain ⟨cs, hcs⟩ := splitText_head maxSize ov (s.drop (maxSize - ov)) hov hdne
    rw [hcs] at hb
    simp only [List.head?_cons, Option.mem_def, Option.some.injEq] at hb
    subst hb
    have hlt : (s.take maxSize).length = maxSize := by
      simp only [List.length_take]
      omega
    refine ⟨by omega, ?_, ?_⟩
    · simp only [List.length_take, List.length_drop]
      omega
    · rw [hlt, List.drop_take, List.take_take, Nat.min_eq_left (Nat.le_of_lt hov)]
      congr 1
      omega
termination_by s.length
decreasing_by
  simp only [List.length_drop]
  omega

lemma splitText_flatMap_drop (maxSize ov : Nat) (hov : ov < maxSize)
    (s : List Char) :
    (splitText maxSize ov s).flatMap (fun t => t.drop ov) = s.drop ov := by
  by_cases h0 : s.length ≤ maxSize
  · cases s with
    | nil => simp [splitText_nil]
    | cons a t =>
        rw [splitText_short maxSize ov (a :: t) (by simp) h0]
        simp
  · rw [splitText_long_step maxSize ov s hov (by omega)]
    rw [List.flatMap_cons,
      splitText_flatMap_drop maxSize ov hov (s.drop (maxSize - ov))]
    rw [List.drop_take, List.drop_drop]
    rw [show maxSize - ov + ov = maxSize from by omega]
    conv_rhs => rw [← List.take_append_drop (maxSize - ov) (s.drop ov)]
    congr 1
    rw [List.drop_drop]
    rw [show ov + (maxSize - ov) = maxSize from by omega]
termination_by s.length
decreasing_by
  simp only [List.length_drop]
  omega

lemma splitText_join (maxSize ov : Nat) (hov : ov < maxSize) (s : List Char) :
    joinWithOverlap ov (splitText maxSize ov s) = s := by
  by_cases h0 : s.length ≤ maxSize
  · cases s with
    | nil => rfl
    | cons a t =>
        rw [splitText_short maxSize ov (a :: t) (by simp) h0]
        simp [joinWithOverlap]
  · rw [splitText_long_step maxSize ov s hov (by omega)]
    show s.take maxSize ++ _ = s
    rw [splitText_flatMap_drop maxSize ov hov (s.drop (maxSize - ov)),
      List.drop_drop]
    have h1 : maxSize - ov + ov = maxSize := by omega
    rw [h1, List.take_append_drop]

lemma splitText_two_le (maxSize ov : Nat) (s : List Char)
    (hov : ov < maxSize) (hlong : maxSize < s.length) :
    2 ≤ (splitText maxSize ov s).length := by
  rw [splitText_long_step maxSize ov s hov hlong]
  have hdne : s.drop (maxSize - ov) ≠ [] := by
    rw [Ne, List.drop_eq_nil_iff]
    omega
  obtain ⟨cs, hcs⟩ := splitText_head maxSize ov (s.drop (maxSize - ov)) hov hdne
  rw [hcs]
  simp only [List.length_cons]
  omega

/-- C4: splitting a Document longer than the maximum chunk size yields
at least two chunks; every pair of consecutive chunks overlaps by
exactly the configured overlap length at its shared boundary (the last
`ov` characters of one chunk are the first `ov` characters of the
next, and dropping exactly that shared region from every chunk after
the first reassembles the Document's text).  The configuration in the
code is `maxSize = 800`, `ov = 150`. -/
theorem split_long_document_exact_overlap (maxSize ov : Nat) (d : Document)
    (hov : ov < maxSize) (hlong : maxSize < d.text.length) :
    (splitDocumentsWith maxSize ov [d]).map (fun c => c.text) =
      splitText maxSize ov d.text ∧
    2 ≤ (splitText maxSize ov d.text).length ∧
    List.Chain' (overlapsBy ov) (splitText maxSize ov d.text) ∧
    joinWithOverlap ov (splitText maxSize ov d.text) = d.text := by
  refine ⟨?_, splitText_two_le maxSize ov d.text hov hlong,
    splitText_chain maxSize ov hov d.text,
    splitText_join maxSize ov hov d.text⟩
  simp [splitDocumentsWith, List.map_map, Function.comp_def]

/-- C4 (witness): with the code's configuration (`chunk_size=800`,
`chunk_overlap=150`) an 801-character document is split into chunks
whose consecutive pairs overlap by exactly 150 characters. -/
theorem split_long_document_exact_overlap_witness :
    150 < 800 ∧
    800 < (List.replicate 801 'a').length ∧
    ((splitDocumentsWith 800 150
        [{ text := List.replicate 801 'a',
           metadata := { source := ['s'], page := none } }]).map (fun c => c.text) =
      splitText 800 150 (List.replicate 801 'a') ∧
    2 ≤ (splitText 800 150 (List.replicate 801 'a')).length ∧
    List.Chain' (overlapsBy 150) (splitText 800 150 (List.replicate 801 'a')) ∧
    joinWithOverlap 150 (splitText 800 150 (List.replicate 801 'a')) =
      List.replicate 801 'a') :=
  ⟨by omega, by rw [List.length_replicate]; omega,
    split_long_document_exact_overlap 800 150
      { text := List.replicate 801 'a',
        metadata := { source := ['s'], page := none } }
      (by omega) (by rw [List.length_replicate]; omega)⟩

lemma splitText_infix (maxSize ov : Nat) (hov : ov < maxSize) (s : List Char) :
    ∀ t ∈ splitText maxSize ov s, t <:+: s ∧ t.length ≤ maxSize := by
  by_cases h0 : s.length ≤ maxSize
  · cases s with
    | nil => simp [splitText_nil]
    | cons a t =>
        rw [splitText_short maxSize ov (a :: t) (by simp) h0]
        intro u hu
        rw [List.mem_singleton] at hu
        subst hu
        exact ⟨List.infix_refl _, h0⟩
  · rw [splitText_long_step maxSize ov s hov (by omega)]
    intro u hu
    rcases List.mem_cons.mp hu with hu | hu
    · subst hu
      refine ⟨( List.take_prefix maxSize s).isInfix, ?_⟩
      simp only [List.length_take]
      omega
    · obtain ⟨hinf, hlen⟩ :=
        splitText_infix maxSize ov hov (s.drop (maxSize - ov)) u hu
      exact ⟨hinf.trans ( List.drop_suffix (maxSize - ov) s).isInfix, hlen⟩
termination_by s.length
decreasing_by
  simp only [List.length_drop]
  omega

/-- C5: every Chunk the Splitter produces has text that is a
contiguous substring of its parent Document's text, of length at most
the maximum chunk size; in particular, on the spec's fixed test
document with max size 20 and overlap 5 the splitter produces several
chunks, each of at most 20 characters. -/
theorem chunks_are_bounded_substrings (maxSize ov : Nat)
    (docs : List Document) (hov : ov < maxSize) :
    (∀ c ∈ splitDocumentsWith maxSize ov docs, ∃ d ∈ docs,
      c.text <:+: d.text ∧ c.text.length ≤ maxSize) ∧
    (1 < (splitText 20 5 fixedTestDoc).length ∧
      ∀ t ∈ splitText 20 5 fixedTestDoc, t.length ≤ 20) := by
  refine ⟨?_, by decide, by decide⟩
  intro c hc
  simp only [splitDocumentsWith, List.mem_flatMap, List.mem_map] at hc
  obtain ⟨d, hd, t, ht, rfl⟩ := hc
  exact ⟨d, hd, splitText_infix maxSize ov hov d.text t ht⟩

/-- C5 (witness): the general substring/size bound instantiated on the
spec's fixed test document with max size 20 and overlap 5. -/
theorem chunks_are_bounded_substrings_witness :
    (∀ c ∈ splitDocumentsWith 20 5
        [{ text := fixedTestDoc, metadata := { source := ['s'], page := none } }],
      ∃ d ∈ [{ text := fixedTestDoc,
               metadata := { source := ['s'], page := none } : Document }],
        c.text <:+: d.text ∧ c.text.length ≤ 20) ∧
    (1 < (splitText 20 5 fixedTestDoc).length ∧
      ∀ t ∈ splitText 20 5 fixedTestDoc, t.length ≤ 20) :=
  chunks_are_bounded_substrings 20 5
    [{ text := fixedTestDoc, metadata := { source := ['s'], page := none } }]
    (by omega)

/-- C9: every Chunk the Splitter produces carries exactly the metadata
of a parent Document it was cut from — the metadata value is inherited
unchanged, with no key added, removed, or modified. -/
theorem chunks_inherit_metadata (maxSize ov : Nat) (docs : List Document) :
    ∀ c ∈ splitDocumentsWith maxSize ov docs,
      ∃ d ∈ docs, c.metadata = d.metadata ∧ c.text ∈ splitText maxSize ov d.text := by
  intro c hc
  simp only [splitDocumentsWith, List.mem_flatMap, List.mem_map] at hc
  obtain ⟨d, hd, t, ht, rfl⟩ := hc
  exact ⟨d, hd, rfl, ht⟩

/-- C9 (witness): the metadata-inheritance theorem instantiated on a
concrete document and one of its chunks. -/
theorem chunks_inherit_metadata_witness :
    ∃ d ∈ [{ text := ['h', 'i'],
             metadata := { source := ['s'], page := some 2 } : Document }],
      ({ text := ['h', 'i'],
         metadata := { source := ['s'], page := some 2 } : Chunk }).metadata =
        d.metadata ∧
      ({ text := ['h', 'i'],
         metadata := { source := ['s'], page := some 2 } : Chunk }).text ∈
        splitText 10 3 d.text :=
  chunks_inherit_metadata 10 3
    [{ text := ['h', 'i'], metadata := { source := ['s'], page := some 2 } }]
    { text := ['h', 'i'], metadata := { source := ['s'], page := some 2 } }
    (by decide)

lemma mapM_ok_length (f : Chunk → Except EmbedError (List Int)) :
    ∀ (l : List Chunk) (bs : List (List Int)), l.mapM f = .ok bs →
      bs.length = l.length := by
  intro l
  induction l with
  | nil =>
      intro bs h
      rw [List.mapM_nil] at h
      cases Except.ok.inj h
      rfl
  | cons a l ih =>
      intro bs h
      rw [List.mapM_cons] at h
      cases hfa : f a with
      | error e => rw [hfa] at h; exact Except.noConfusion h
      | ok b =>
          rw [hfa] at h
          cases hml : l.mapM f with
          | error e => rw [hml] at h; exact Except.noConfusion h
          | ok bs' =>
              rw [hml] at h
              cases Except.ok.inj h
              simp only [List.length_cons, ih bs' hml]

lemma mapM_error_of_mem (f : Chunk → Except EmbedError (List Int)) :
    ∀ (l : List Chunk) (a : Chunk), a ∈ l → ∀ e, f a = .error e →
      ∃ err, l.mapM f = .error err := by
  intro l
  induction l with
  | nil =>
      intro a ha
      exact absurd ha (List.not_mem_nil a)
  | cons b l ih =>
      intro a ha e he
      rw [List.mapM_cons]
      cases hfb : f b with
      | error eb => exact ⟨eb, rfl⟩
      | ok v =>
          rcases List.mem_cons.mp ha with rfl | ha'
          · rw [hfb] at he
            exact Except.noConfusion he
          · obtain ⟨err, herr⟩ := ih a ha' e he
            refine ⟨err, ?_⟩
            rw [herr]
            rfl

lemma zipWith_mkRecord_map_id :
    ∀ (ivs : List (Nat × List Int)) (cs : List Chunk), cs.length = ivs.length →
      (List.zipWith mkRecord ivs cs).map (fun r => r.id) = ivs.map Prod.fst
  | [], [], _ => rfl
  | [], _ :: _, h => by simp at h
  | _ :: _, [], h => by simp at h
  | iv :: ivs, c :: cs, h => by
      simp only [List.zipWith_cons_cons, List.map_cons, mkRecord]
      rw [zipWith_mkRecord_map_id ivs cs (by simpa using h)]

lemma zipWith_mkRecord_map_text :
    ∀ (ivs : List (Nat × List Int)) (cs : List Chunk), cs.length = ivs.length →
      (List.zipWith mkRecord ivs cs).map (fun r => r.text) =
        cs.map (fun c => c.text)
  | [], [], _ => rfl
  | [], _ :: _, h => by simp at h
  | _ :: _, [], h => by simp at h
  | iv :: ivs, c :: cs, h => by
      simp only [List.zipWith_cons_cons, List.map_cons, mkRecord]
      rw [zipWith_mkRecord_map_text ivs cs (by simpa using h)]

lemma zipWith_mkRecord_map_metadata :
    ∀ (ivs : List (Nat × List Int)) (cs : List Chunk), cs.length = ivs.length →
      (List.zipWith mkRecord ivs cs).map (fun r => r.metadata) =
        cs.map (fun c => c.metadata)
  | [], [], _ => rfl
  | [], _ :: _, h => by simp at h
  | _ :: _, [], h => by simp at h
  | iv :: ivs, c :: cs, h => by
      simp only [List.zipWith_cons_cons, List.map_cons, mkRecord]
      rw [zipWith_mkRecord_map_metadata ivs cs (by simpa using h)]

lemma freshIds_nodup (g n : Nat) : (freshIds g n).Nodup :=
  List.Nodup.map (fun a b hab => by omega) (List.nodup_range n)

lemma freshIds_length (g n : Nat) : (freshIds g n).length = n := by
  simp [freshIds]

lemma mem_freshIds {g n x : Nat} (hx : x ∈ freshIds g n) :
    g ≤ x ∧ x < g + n := by
  simp only [freshIds, List.mem_map, List.mem_range] at hx
  obtain ⟨i, hi, rfl⟩ := hx
  omega

lemma build_vectorstore_ok (embed : List Char → Except EmbedError (List Int))
    (store : List EmbeddingRecord) (g : Nat) (chunks : List Chunk)
    (vecs : List (List Int))
    (hm : chunks.mapM (fun c => embed c.text) = .ok vecs) :
    build_vectorstore embed store g chunks =
      .ok (store ++ List.zipWith mkRecord
        ((freshIds g chunks.length).zip vecs) chunks, g + chunks.length) := by
  unfold build_vectorstore
  rw [hm]

lemma records_map_id (g : Nat) (chunks : List Chunk) (vecs : List (List Int))
    (hlen : vecs.length = chunks.length) :
    (List.zipWith mkRecord ((freshIds g chunks.length).zip vecs) chunks).map
      (fun r => r.id) = freshIds g chunks.length := by
  rw [zipWith_mkRecord_map_id _ _ (by simp [freshIds_length, hlen, List.length_zip])]
  exact List.map_fst_zip _ _ (by simp [freshIds_length, hlen])

/-- C6: the ids generated for the records written to the vector store
in one ingestion run are pairwise distinct. -/
theorem ingestion_run_ids_distinct
    (embed : List Char → Except EmbedError (List Int))
    (store : List EmbeddingRecord) (g : Nat) (chunks : List Chunk)
    (out : List EmbeddingRecord × Nat)
    (h : build_vectorstore embed store g chunks = .ok out) :
    List.Pairwise (fun r1 r2 => r1.id ≠ r2.id) (out.1.drop store.length) := by
  cases hm : chunks.mapM (fun c => embed c.text) with
  | error e =>
      unfold build_vectorstore at h
      rw [hm] at h
      exact Except.noConfusion h
  | ok vecs =>
      rw [build_vectorstore_ok embed store g chunks vecs hm] at h
      cases Except.ok.inj h
      simp only [List.drop_left]
      have hnodup : ((List.zipWith mkRecord
          ((freshIds g chunks.length).zip vecs) chunks).map (fun r => r.id)).Nodup := by
        rw [records_map_id g chunks vecs (mapM_ok_length _ chunks vecs hm)]
        exact freshIds_nodup g chunks.length
      exact (List.pairwise_map.mp hnodup)

/-- C6 (witness): ingesting two chunks with a stub embedder produces
records with pairwise distinct ids. -/
theorem ingestion_run_ids_distinct_witness :
    build_vectorstore (fun _ => Except.ok ([0] : List Int)) [] 0
        [{ text := ['a'], metadata := { source := ['s'], page := none } },
         { text := ['b'], metadata := { source := ['s'], page := none } }] =
      .ok ([{ id := 0, vector := [0], text := ['a'],
              metadata := { source := ['s'], page := none } },
            { id := 1, vector := [0], text := ['b'],
              metadata := { source := ['s'], page := none } }], 2) ∧
    List.Pairwise (fun r1 r2 => r1.id ≠ r2.id)
      ((([{ id := 0, vector := [0], text := ['a'],
            metadata := { source := ['s'], page := none } },
          { id := 1, vector := [0], text := ['b'],
            metadata := { source := ['s'], page := none } }],
          2) : List EmbeddingRecord × Nat).1.drop
        ([] : List EmbeddingRecord).length) :=
  ⟨by rfl,
    ingestion_run_ids_distinct (fun _ => Except.ok ([0] : List Int)) [] 0
      [{ text := ['a'], metadata := { source := ['s'], page := none } },
       { text := ['b'], metadata := { source := ['s'], page := none } }]
      ([{ id := 0, vector := [0], text := ['a'],
          metadata := { source := ['s'], page := none } },
        { id := 1, vector := [0], text := ['b'],
          metadata := { source := ['s'], page := none } }], 2)
      (by rfl)⟩

/-- C7: ingestion is not idempotent.  Running the indexer a second
time with the same chunks against the collection produced by the first
run succeeds, keeps the first run's records untouched as a prefix,
strictly grows the collection, and appends records with the same texts
and metadata as the first run's but with ids disjoint from every id of
the first run — duplicates are appended, nothing is replaced. -/
theorem reingestion_appends_duplicates
    (embed : List Char → Except EmbedError (List Int))
    (store : List EmbeddingRecord) (g : Nat) (chunks : List Chunk)
    (out1 : List EmbeddingRecord × Nat) (hne : chunks ≠ [])
    (h1 : build_vectorstore embed store g chunks = .ok out1) :
    ∃ out2, build_vectorstore embed out1.1 out1.2 chunks = .ok out2 ∧
      out1.1 <+: out2.1 ∧
      out1.1.length < out2.1.length ∧
      (out1.1.drop store.length).map (fun r => r.text) =
        (out2.1.drop out1.1.length).map (fun r => r.text) ∧
      (out1.1.drop store.length).map (fun r => r.metadata) =
        (out2.1.drop out1.1.length).map (fun r => r.metadata) ∧
      ∀ r1 ∈ out1.1.drop store.length, ∀ r2 ∈ out2.1.drop out1.1.length,
        r1.id ≠ r2.id := by
  cases hm : chunks.mapM (fun c => embed c.text) with
  | error e =>
      unfold build_vectorstore at h1
      rw [hm] at h1
      exact Except.noConfusion h1
  | ok vecs =>
      rw [build_vectorstore_ok embed store g chunks vecs hm] at h1
      cases Except.ok.inj h1
      have hlen : vecs.length = chunks.length := mapM_ok_length _ chunks vecs hm
      have hziplen : ∀ g0 : Nat, chunks.length =
          (((freshIds g0 chunks.length).zip vecs)).length := by
        intro g0
        simp [List.length_zip, freshIds_length, hlen]
      have hreclen : ∀ g0 : Nat, (List.zipWith mkRecord
          ((freshIds g0 chunks.length).zip vecs) chunks).length = chunks.length := by
        intro g0
        simp [List.length_zipWith, List.length_zip, freshIds_length, hlen]
      refine ⟨_, build_vectorstore_ok embed _ _ chunks vecs hm, List.prefix_append _ _,
        ?_, ?_, ?_, ?_⟩
      · have hc : 0 < chunks.length := List.length_pos.mpr hne
        simp only [List.length_append, hreclen]
        omega
      · simp only [List.drop_left]
        rw [zipWith_mkRecord_map_text _ _ (hziplen g),
          zipWith_mkRecord_map_text _ _ (hziplen (g + chunks.length))]
      · simp only [List.drop_left]
        rw [zipWith_mkRecord_map_metadata _ _ (hziplen g),
          zipWith_mkRecord_map_metadata _ _ (hziplen (g + chunks.length))]
      · simp only [List.drop_left]
        intro r1 hr1 r2 hr2
        have h1id : r1.id ∈ freshIds g chunks.length := by
          rw [← records_map_id g chunks vecs hlen]
          exact List.mem_map_of_mem _ hr1
        have h2id : r2.id ∈ freshIds (g + chunks.length) chunks.length := by
          rw [← records_map_id (g + chunks.length) chunks vecs hlen]
          exact List.mem_map_of_mem _ hr2
        have hb1 := mem_freshIds h1id
        have hb2 := mem_freshIds h2id
        omega

/-- C7 (witness): re-ingesting the same single chunk against the
collection the first run produced appends a duplicate record with a
fresh id instead of replacing the existing one. -/
theorem reingestion_appends_duplicates_witness :
    ∃ out2, build_vectorstore stubEmbed firstRunOut.1 firstRunOut.2
        singleChunkBatch = .ok out2 ∧
      firstRunOut.1 <+: out2.1 ∧
      firstRunOut.1.length < out2.1.length ∧
      (firstRunOut.1.drop ([] : List EmbeddingRecord).length).map
          (fun r => r.text) =
        (out2.1.drop firstRunOut.1.length).map (fun r => r.text) ∧
      (firstRunOut.1.drop ([] : List EmbeddingRecord).length).map
          (fun r => r.metadata) =
        (out2.1.drop firstRunOut.1.length).map (fun r => r.metadata) ∧
      ∀ r1 ∈ firstRunOut.1.drop ([] : List EmbeddingRecord).length,
        ∀ r2 ∈ out2.1.drop firstRunOut.1.length, r1.id ≠ r2.id :=
  reingestion_appends_duplicates stubEmbed [] 5 singleChunkBatch firstRunOut
    (by decide) (by rfl)

/-- C8: a failing embedding call aborts the whole ingestion run: if
the provider fails on any chunk of the batch, `build_vectorstore`
propagates an error and writes nothing — there is no retry and no
partial result. -/
theorem embed_failure_is_fatal
    (embed : List Char → Except EmbedError (List Int))
    (store : List EmbeddingRecord) (g : Nat) (chunks : List Chunk)
    (c : Chunk) (e : EmbedError) (hc : c ∈ chunks)
    (he : embed c.text = .error e) :
    ∃ err, build_vectorstore embed store g chunks = .error err := by
  obtain ⟨err, herr⟩ :=
    mapM_error_of_mem (fun c => embed c.text) chunks c hc e he
  refine ⟨err, ?_⟩
  unfold build_vectorstore
  rw [herr]

/-- C8 (witness): an embedder that fails on the sole chunk makes the
whole run return an error. -/
theorem embed_failure_is_fatal_witness :
    ∃ err, build_vectorstore
        (fun _ => Except.error ({ message := ['x'] } : EmbedError)) [] 0
        [{ text := ['a'], metadata := { source := ['s'], page := none } }] =
      .error err :=
  embed_failure_is_fatal
    (fun _ => Except.error ({ message := ['x'] } : EmbedError)) [] 0
    [{ text := ['a'], metadata := { source := ['s'], page := none } }]
    { text := ['a'], metadata := { source := ['s'], page := none } }
    { message := ['x'] } (by decide) rfl

end Ingest

namespace ChatApp

/-- C10: the chat endpoint's answer is the content of the first choice
of the chat completion obtained for exactly two messages: the fixed
system message "You are a helpful assistant." followed by the user's
request message forwarded verbatim as the user-role content. -/
theorem chat_returns_first_choice
    (complete : List ChatMessage → ChatCompletion) (req : ChatRequest)
    (c : Choice) (rest : List Choice)
    (h : (complete
        [{ role := ("system").data,
           content := ("You are a helpful assistant.").data },
         { role := ("user").data, content := req.message }]).choices =
      c :: rest) :
    chat complete req = some { answer := c.message.content } := by
  unfold chat chat_with_llm systemPrompt
  rw [h]
  rfl

/-- C10 (witness): a stub completion oracle with one choice yields its
content as the endpoint's answer. -/
theorem chat_returns_first_choice_witness :
    chat (fun _ => { choices :=
        [{ message := { role := ['a'], content := ['o', 'k'] } }] })
      { message := ['h', 'i'] } = some { answer := ['o', 'k'] } :=
  chat_returns_first_choice
    (fun _ => { choices :=
      [{ message := { role := ['a'], content := ['o', 'k'] } }] })
    { message := ['h', 'i'] }
    { message := { role := ['a'], content := ['o', 'k'] } } [] rfl

end ChatApp
